import Mathlib

/-!
Shallow embedding of `src/app/scraper.py` (class `BasicWebScraper`).

External collaborators (the HTTP transport `requests`, the HTML parser
`BeautifulSoup`, the URL resolver `urllib.parse.urljoin`, and the iteration
order CPython uses when `list(...)` is applied to a `set` of strings) are
modelled as oracle fields of an `Env` record.  The network-location
extraction of `urllib.parse.urlparse` is modelled faithfully down to the
`Invalid IPv6 URL` `ValueError`, because the scope filter's behaviour on
malformed URLs depends on it.  Exceptions are modelled with `Except`.
-/

namespace Scraper

/-- A page result, modelling the Python `dict` from field name to list of
extracted strings (`Dict[str, List[str]]`), as an insertion-ordered
association list. -/
abbrev PageResult := List (String × List String)

/-- The external collaborators of `BasicWebScraper`:
`transport` models `requests.get` (either a body text or a
`requests.RequestException`), `anchorHrefs` models
`soup.find_all('a', href=True)` returning each anchor's `href` in document
order, `urljoin` models `urllib.parse.urljoin`, `findTexts` models
`soup.find_all(tag, class_=class_name)` followed by `get_text(strip=True)`,
and `setOrder` models the iteration order CPython uses when converting a
`set` of strings to a `list` (unspecified, hash-seed dependent). -/
structure Env where
  transport : String → Except String String
  anchorHrefs : String → List String
  urljoin : String → String → String
  findTexts : String → String → Option String → List String
  setOrder : Finset String → List String

/-- The characters CPython's `urllib.parse` accepts inside a URL scheme
(`scheme_chars`). -/
def schemeChars : List Char :=
  "abcdefghijklmnopqrstuvwxyzABCDEFGHIJKLMNOPQRSTUVWXYZ0123456789+-.".toList

/-- Models the loop in `urllib.parse.urlsplit` that removes the unsafe bytes
tab, CR and LF from the URL before parsing. -/
def stripUnsafe (l : List Char) : List Char :=
  l.filter (fun c => !(c == '\t' || c == '\r' || c == '\n'))

/-- Models the scheme-splitting step of `urllib.parse.urlsplit`: if the URL
has a colon at a positive index, its first character is an ASCII letter and
every character before the colon lies in `scheme_chars`, the scheme and the
colon are dropped; otherwise the URL is left unchanged. -/
def afterScheme (l : List Char) : List Char :=
  let pre := l.takeWhile (fun c => c != ':')
  let rest := l.dropWhile (fun c => c != ':')
  match pre, rest with
  | _ :: _, _ :: rest' =>
    if (l.headD ' ').isAlpha && pre.all (fun c => schemeChars.contains c) then rest' else l
  | _, _ => l

/-- Models the network-location extraction of `urllib.parse.urlparse` /
`urlsplit` (CPython): strip unsafe bytes, strip a well-formed scheme, and if
the remainder starts with `//` take everything up to the first of `/`, `?`,
`#` as the netloc, raising `ValueError` (`Invalid IPv6 URL`) when the netloc
contains `[` without `]` or `]` without `[`; otherwise the netloc is empty.
The additional bracketed-host validation added in CPython 3.11 is not
modelled. -/
def netlocE (s : String) : Except Unit String :=
  let u := afterScheme (stripUnsafe s.toList)
  if u.take 2 = ['/', '/'] then
    let nl := (u.drop 2).takeWhile (fun c => !(c == '/' || c == '?' || c == '#'))
    if (nl.contains '[' && !(nl.contains ']')) || (nl.contains ']' && !(nl.contains '[')) then
      .error ()
    else
      .ok (String.mk nl)
  else .ok ""

/-- Model of `BasicWebScraper.is_internal_url`: compares
`urlparse(url).netloc == urlparse(self.base_url).netloc`, propagating the
`ValueError` either `urlparse` call may raise. -/
def is_internal_url (base_url url : String) : Except Unit Bool := do
  let n1 ← netlocE url
  let n2 ← netlocE base_url
  pure (n1 == n2)

/-- Model of `BasicWebScraper.fetch_html`: `requests.get` wrapped in
`try/except RequestException`, returning `none` on a transport error. -/
def fetch_html (env : Env) (url : String) : Option String :=
  match env.transport url with
  | .ok body => some body
  | .error _ => none

/-- Model of `BasicWebScraper.parse_elements`: delegates to the HTML-parser oracle. -/
def parse_elements (env : Env) (html tag : String) (class_name : Option String) : List String :=
  env.findTexts html tag class_name

/-- Model of `BasicWebScraper.get_links`: for every anchor `href`, resolve it against
`base_url` with `urljoin` and add it to the result set when
`is_internal_url` (against the scraper's `self.base_url`) accepts it. -/
def get_links (env : Env) (self_base html base_url : String) : Except Unit (Finset String) :=
  (env.anchorHrefs html).foldlM
    (fun links href => do
      let url := env.urljoin base_url href
      if (← is_internal_url self_base url) then pure (insert url links) else pure links)
    (∅ : Finset String)

/-- Assignment `d[k] = v` on a Python `dict` modelled as an insertion-ordered
association list: replace in place when the key exists, append otherwise. -/
def dictInsert (d : PageResult) (k : String) (v : List String) : PageResult :=
  if d.any (fun p => p.1 == k) then d.map (fun p => if p.1 == k then (k, v) else p)
  else d ++ [(k, v)]

/-- Python `d.get(k, default)` on the association-list model of a `dict`. -/
def dictGet (d : PageResult) (k : String) (dflt : List String) : List String :=
  match d.find? (fun p => p.1 == k) with
  | some p => p.2
  | none => dflt

/-- Model of `BasicWebScraper.scrape_page`: returns `{}` when `fetch_html` fails,
otherwise one entry per requested tag (via `parse_elements`) plus the
`links` entry, which is `list(self.get_links(html, url))` — the internal
link set serialised in the environment's set-iteration order. -/
def scrape_page (env : Env) (self_base url : String) (tags : List (String × Option String)) :
    Except Unit PageResult :=
  match fetch_html env url with
  | none => .ok []
  | some html => do
    let results := tags.foldl
      (fun res tc => dictInsert res tc.1 (parse_elements env html tc.1 tc.2)) []
    let links ← get_links env self_base html url
    pure (dictInsert results "links" (env.setOrder links))

/-- The `while` loop of `BasicWebScraper.crawl`: pop the queue head, skip it
when already visited, otherwise mark it visited, scrape it, and on a
non-empty page result record the result and append the not-yet-visited
links to the queue.  The loop stops when the queue is empty or
`len(scraped_data) < max_pages` fails. -/
def crawlLoop (env : Env) (self_base : String) (tags : List (String × Option String))
    (max_pages : Nat) (queue : List String) (visited : Finset String)
    (scraped : List PageResult) : Except Unit (Finset String × List PageResult) :=
  match queue with
  | [] => .ok (visited, scraped)
  | url :: rest =>
    if _h : scraped.length < max_pages then
      if url ∈ visited then
        crawlLoop env self_base tags max_pages rest visited scraped
      else
        match scrape_page env self_base url tags with
        | .error e => .error e
        | .ok page_data =>
          if page_data.isEmpty then
            crawlLoop env self_base tags max_pages rest (insert url visited) scraped
          else
            let new_links := dictGet page_data "links" []
            let queue' := rest ++ new_links.filter (fun l => decide (l ∉ insert url visited))
            crawlLoop env self_base tags max_pages queue' (insert url visited)
              (scraped ++ [page_data])
    else .ok (visited, scraped)
termination_by (max_pages - scraped.length, queue.length)
decreasing_by
  · exact Prod.Lex.right _ (by simp)
  · exact Prod.Lex.right _ (by simp)
  · simp only [List.length_append, List.length_cons, List.length_nil]
    exact Prod.Lex.left _ _ (by omega)

/-- Model of `BasicWebScraper.crawl`: starts from a queue holding exactly
`self.base_url`, an empty result list, and the scraper instance's current
`self.visited` set (which the method never resets), and returns the final
`self.visited` together with `scraped_data`. -/
def crawl (env : Env) (self_base : String) (visited : Finset String)
    (tags : List (String × Option String)) (max_pages : Nat) :
    Except Unit (Finset String × List PageResult) :=
  crawlLoop env self_base tags max_pages [self_base] visited []

deriving instance DecidableEq for Except

/-- The loop of `BasicWebScraper.crawl` with explicit fuel: `none` means the
fuel ran out before the loop finished.  Structurally recursive, hence
directly evaluable; `crawlFuel_sound` ties it back to `crawlLoop`. -/
def crawlFuel (env : Env) (self_base : String) (tags : List (String × Option String))
    (max_pages : Nat) :
    Nat → List String → Finset String → List PageResult →
      Option (Except Unit (Finset String × List PageResult))
  | 0, _, _, _ => none
  | n + 1, queue, visited, scraped =>
    match queue with
    | [] => some (.ok (visited, scraped))
    | url :: rest =>
      if scraped.length < max_pages then
        if url ∈ visited then crawlFuel env self_base tags max_pages n rest visited scraped
        else
          match scrape_page env self_base url tags with
          | .error e => some (.error e)
          | .ok page_data =>
            if page_data.isEmpty then
              crawlFuel env self_base tags max_pages n rest (insert url visited) scraped
            else
              crawlFuel env self_base tags max_pages n
                (rest ++ (dictGet page_data "links" []).filter
                  (fun l => decide (l ∉ insert url visited)))
                (insert url visited) (scraped ++ [page_data])
      else some (.ok (visited, scraped))

theorem crawlFuel_sound (env : Env) (sb : String) (tags : List (String × Option String))
    (mp : Nat) :
    ∀ (n : Nat) (q : List String) (v : Finset String) (sc : List PageResult)
      (r : Except Unit (Finset String × List PageResult)),
      crawlFuel env sb tags mp n q v sc = some r → crawlLoop env sb tags mp q v sc = r := by
  intro n
  induction n with
  | zero => intro q v sc r h; simp [crawlFuel] at h
  | succ n ih =>
    intro q v sc r h
    rw [crawlLoop.eq_def]
    rw [crawlFuel.eq_def] at h
    cases q with
    | nil => simp_all
    | cons url rest =>
      by_cases hlen : sc.length < mp
      · simp only [if_pos hlen] at h
        simp only [dif_pos hlen]
        by_cases hv : url ∈ v
        · simp only [if_pos hv] at h ⊢
          exact ih _ _ _ _ h
        · simp only [if_neg hv] at h ⊢
          cases hsp : scrape_page env sb url tags with
          | error e => rw [hsp] at h; cases h; rfl
          | ok pd =>
            rw [hsp] at h
            by_cases hemp : pd.isEmpty
            · simp only [if_pos hemp] at h ⊢
              exact ih _ _ _ _ h
            · simp only [if_neg hemp] at h ⊢
              exact ih _ _ _ _ h
      · simp only [if_neg hlen] at h
        simp only [dif_neg hlen]
        cases h
        rfl

/-- The mutable state of one `crawl` run: the pending `deque`, the
`self.visited` set, and the accumulated `scraped_data`. -/
structure CrawlState where
  queue : List String
  visited : Finset String
  scraped : List PageResult
deriving DecidableEq

/-- One iteration of the `while` loop of `BasicWebScraper.crawl` as a step
function on `CrawlState`: `none` means the loop guard fails (queue empty or
page budget reached) and the loop exits; `some (.error e)` means the body
raises; `some (.ok s)` is the state after one iteration. -/
def crawlStep (env : Env) (self_base : String) (tags : List (String × Option String))
    (max_pages : Nat) (s : CrawlState) : Option (Except Unit CrawlState) :=
  match s.queue with
  | [] => none
  | url :: rest =>
    if s.scraped.length < max_pages then
      if url ∈ s.visited then some (.ok ⟨rest, s.visited, s.scraped⟩)
      else
        match scrape_page env self_base url tags with
        | .error e => some (.error e)
        | .ok page_data =>
          if page_data.isEmpty then some (.ok ⟨rest, insert url s.visited, s.scraped⟩)
          else
            let new_links := dictGet page_data "links" []
            some (.ok ⟨rest ++ new_links.filter (fun l => decide (l ∉ insert url s.visited)),
              insert url s.visited, s.scraped ++ [page_data]⟩)
    else none

/-- Iterating `crawlStep` up to `n` times, stopping early when the loop guard
fails.  Structurally recursive, so concrete runs evaluate by `decide`. -/
def crawlStepN (env : Env) (self_base : String) (tags : List (String × Option String))
    (max_pages : Nat) : Nat → CrawlState → Except Unit CrawlState
  | 0, s => .ok s
  | n + 1, s =>
    match crawlStep env self_base tags max_pages s with
    | none => .ok s
    | some (.error e) => .error e
    | some (.ok s') => crawlStepN env self_base tags max_pages n s'

/-- Reachability in zero or more loop iterations between crawl states. -/
inductive Reaches (env : Env) (self_base : String) (tags : List (String × Option String))
    (max_pages : Nat) : CrawlState → CrawlState → Prop
  | refl (s : CrawlState) : Reaches env self_base tags max_pages s s
  | tail {s s' s'' : CrawlState} :
      crawlStep env self_base tags max_pages s = some (.ok s') →
      Reaches env self_base tags max_pages s' s'' →
      Reaches env self_base tags max_pages s s''

/-- Inversion of a successful loop iteration: the queue was non-empty, the
budget was not yet reached, and the iteration either skipped an
already-visited head, dropped a failed fetch, or recorded a page result and
enqueued its unvisited links. -/
theorem crawlStep_ok_inversion (env : Env) (sb : String) (tags : List (String × Option String))
    (mp : Nat) {s s' : CrawlState}
    (h : crawlStep env sb tags mp s = some (.ok s')) :
    ∃ url rest, s.queue = url :: rest ∧ s.scraped.length < mp ∧
      ((url ∈ s.visited ∧ s' = ⟨rest, s.visited, s.scraped⟩) ∨
       (url ∉ s.visited ∧ ∃ pd, scrape_page env sb url tags = .ok pd ∧
         ((pd.isEmpty ∧ s' = ⟨rest, insert url s.visited, s.scraped⟩) ∨
          (¬ pd.isEmpty ∧
            s' = ⟨rest ++ (dictGet pd "links" []).filter
                (fun l => decide (l ∉ insert url s.visited)),
              insert url s.visited, s.scraped ++ [pd]⟩)))) := by
  unfold crawlStep at h
  cases hq : s.queue with
  | nil => rw [hq] at h; cases h
  | cons url rest =>
    rw [hq] at h
    dsimp only at h
    refine ⟨url, rest, rfl, ?_⟩
    by_cases hlen : s.scraped.length < mp
    · refine ⟨hlen, ?_⟩
      rw [if_pos hlen] at h
      by_cases hv : url ∈ s.visited
      · rw [if_pos hv] at h
        cases h
        exact Or.inl ⟨hv, rfl⟩
      · rw [if_neg hv] at h
        cases hsp : scrape_page env sb url tags with
        | error e => rw [hsp] at h; cases h
        | ok pd =>
          rw [hsp] at h
          dsimp only at h
          refine Or.inr ⟨hv, pd, rfl, ?_⟩
          by_cases hemp : pd.isEmpty
          · rw [if_pos hemp] at h
            cases h
            exact Or.inl ⟨hemp, rfl⟩
          · rw [if_neg hemp] at h
            cases h
            exact Or.inr ⟨hemp, rfl⟩
    · rw [if_neg hlen] at h
      cases h

theorem crawlStep_visited_mono (env : Env) (sb : String) (tags : List (String × Option String))
    (mp : Nat) {s s' : CrawlState} (h : crawlStep env sb tags mp s = some (.ok s')) :
    s.visited ⊆ s'.visited := by
  obtain ⟨url, rest, -, -, hcase⟩ := crawlStep_ok_inversion env sb tags mp h
  rcases hcase with ⟨-, rfl⟩ | ⟨-, pd, -, ⟨-, rfl⟩ | ⟨-, rfl⟩⟩
  · exact Finset.Subset.refl _
  · exact Finset.subset_insert _ _
  · exact Finset.subset_insert _ _

theorem reaches_visited_mono (env : Env) (sb : String) (tags : List (String × Option String))
    (mp : Nat) {s s' : CrawlState} (h : Reaches env sb tags mp s s') :
    s.visited ⊆ s'.visited := by
  induction h with
  | refl s => exact Finset.Subset.refl _
  | tail hstep _ ih => exact Finset.Subset.trans (crawlStep_visited_mono _ _ _ _ hstep) ih

/-- Relation of `crawlStep` to the loop: an exact one-iteration unfolding of `crawlLoop`. -/
theorem crawlLoop_step_rel (env : Env) (sb : String) (tags : List (String × Option String))
    (mp : Nat) (q : List String) (v : Finset String) (sc : List PageResult) :
    crawlLoop env sb tags mp q v sc =
      match crawlStep env sb tags mp ⟨q, v, sc⟩ with
      | none => .ok (v, sc)
      | some (.error e) => .error e
      | some (.ok s') => crawlLoop env sb tags mp s'.queue s'.visited s'.scraped := by
  rw [crawlLoop.eq_def]
  cases q with
  | nil => simp [crawlStep]
  | cons url rest =>
    simp only [crawlStep]
    by_cases hlen : sc.length < mp
    · simp only [dif_pos hlen, if_pos hlen]
      by_cases hv : url ∈ v
      · simp [hv]
      · simp only [if_neg hv]
        cases hsp : scrape_page env sb url tags with
        | error e => simp
        | ok pd =>
          by_cases hemp : pd.isEmpty
          · simp [hemp]
          · simp [hemp]
    · simp [dif_neg hlen, hlen]

/-- Running `crawlStepN` until the loop guard fails computes `crawlLoop`. -/
theorem crawlLoop_of_stepN (env : Env) (sb : String) (tags : List (String × Option String))
    (mp : Nat) :
    ∀ (n : Nat) (s s' : CrawlState), crawlStepN env sb tags mp n s = .ok s' →
      crawlStep env sb tags mp s' = none →
      crawlLoop env sb tags mp s.queue s.visited s.scraped = .ok (s'.visited, s'.scraped) := by
  intro n
  induction n with
  | zero =>
    intro s s' h hstop
    cases h
    rw [crawlLoop_step_rel, hstop]
  | succ n ih =>
    intro s s' h hstop
    rw [crawlLoop_step_rel]
    rw [crawlStepN] at h
    cases hstep : crawlStep env sb tags mp s with
    | none =>
      rw [hstep] at h
      cases h
      rfl
    | some r =>
      rw [hstep] at h
      cases r with
      | error e => simp at h
      | ok s1 => exact ih s1 s' h hstop

/-- A hexadecimal digit, as used by CPython's `json` encoder for `\uXXXX`
escapes. -/
def hexDigit (n : Nat) : Char :=
  "0123456789abcdef".toList.getD n '0'

/-- Four-digit lower-case hexadecimal rendering of a code unit. -/
def uHex4 (n : Nat) : String :=
  String.mk [hexDigit (n / 4096 % 16), hexDigit (n / 256 % 16), hexDigit (n / 16 % 16),
    hexDigit (n % 16)]

/-- Escaping of one character by CPython's `json` encoder with the default
`ensure_ascii=True`: named escapes for backslash, quote, backspace, form
feed, newline, carriage return and tab; printable ASCII unchanged; anything
else as `\uXXXX` (with a surrogate pair above the basic plane). -/
def jsonEscapeChar (c : Char) : String :=
  if c = '\\' then "\\\\"
  else if c = '"' then "\\\""
  else if c.toNat = 8 then "\\b"
  else if c.toNat = 12 then "\\f"
  else if c = '\n' then "\\n"
  else if c = '\r' then "\\r"
  else if c = '\t' then "\\t"
  else if 0x20 ≤ c.toNat ∧ c.toNat ≤ 0x7e then String.mk [c]
  else if c.toNat ≤ 0xffff then "\\u" ++ uHex4 c.toNat
  else
    let n := c.toNat - 0x10000
    "\\u" ++ uHex4 (0xd800 + n / 0x400) ++ "\\u" ++ uHex4 (0xdc00 + n % 0x400)

/-- A JSON string literal as CPython's `json` encoder produces it. -/
def jsonStr (s : String) : String :=
  "\"" ++ String.join (s.toList.map jsonEscapeChar) ++ "\""

/-- Indentation (`indent=4`) at nesting level `lvl`. -/
def indentN (lvl : Nat) : String :=
  String.mk (List.replicate (4 * lvl) ' ')

/-- Rendering by `json.dump` (with `indent=4`) of a list of strings at nesting
level `lvl`: `[]` when empty, otherwise one element per line. -/
def renderStrList (lvl : Nat) (l : List String) : String :=
  match l with
  | [] => "[]"
  | _ =>
    "[\n" ++ String.intercalate ",\n" (l.map (fun s => indentN (lvl + 1) ++ jsonStr s)) ++
      "\n" ++ indentN lvl ++ "]"

/-- Rendering by `json.dump` (with `indent=4`) of one `PageResult` object. -/
def renderPage (lvl : Nat) (p : PageResult) : String :=
  match p with
  | [] => "\x7b\x7d"
  | _ =>
    "\x7b\n" ++ String.intercalate ",\n"
        (p.map (fun kv => indentN (lvl + 1) ++ jsonStr kv.1 ++ ": " ++ renderStrList (lvl + 1) kv.2)) ++
      "\n" ++ indentN lvl ++ "\x7d"

/-- Model of `BasicWebScraper.save_to_file`'s serialisation
`json.dump(data, file, indent=4)`: the byte content written to the file. -/
def renderCrawl (data : List PageResult) : String :=
  match data with
  | [] => "[]"
  | _ => "[\n" ++ String.intercalate ",\n" (data.map (fun p => indentN 1 ++ renderPage 1 p)) ++ "\n]"

/-- The crawl-and-serialise pipeline of the script: run `crawl` on a fresh
scraper instance (empty `self.visited`) and serialise the scraped data as
`save_to_file` does. -/
def crawl_and_serialize (env : Env) (self_base : String)
    (tags : List (String × Option String)) (max_pages : Nat) : Except Unit String :=
  (crawl env self_base ∅ tags max_pages).map (fun p => renderCrawl p.2)

/-- Insertion of a string into a list, keeping an ascending list ascending
(an insertion-sort step, used to enumerate a `Finset` concretely). -/
theorem string_toList_inj {s t : String} (h : s.toList = t.toList) : s = t := by
  cases s
  cases t
  simp only [String.toList] at h
  exact congrArg String.mk h

/-- Character-wise lexicographic order on strings.  (The kernel can
evaluate it, unlike the byte-iterator comparison of `String.lt`.) -/
def strLe (a b : String) : Prop := a.toList ≤ b.toList

instance (a b : String) : Decidable (strLe a b) := by
  unfold strLe
  infer_instance

/-- Insertion of a string into a list, keeping an ascending list ascending
(an insertion-sort step, used to enumerate a `Finset` concretely). -/
def insSorted (a : String) : List String → List String
  | [] => [a]
  | b :: t => if strLe a b then a :: b :: t else b :: insSorted a t

theorem strLe_antisymm {a b : String} (hab : strLe a b) (hba : strLe b a) : a = b :=
  string_toList_inj (le_antisymm hab hba)

theorem strLe_total (a b : String) : strLe a b ∨ strLe b a := le_total a.toList b.toList

theorem strLe_trans {a b c : String} (hab : strLe a b) (hbc : strLe b c) : strLe a c :=
  le_trans hab hbc

theorem insSorted_comm (a b : String) (l : List String) :
    insSorted a (insSorted b l) = insSorted b (insSorted a l) := by
  induction l with
  | nil =>
    by_cases hab : strLe a b <;> by_cases hba : strLe b a
    · have h : a = b := strLe_antisymm hab hba
      subst h; rfl
    · simp [insSorted, hab, hba]
    · simp [insSorted, hab, hba]
    · exact absurd (strLe_total a b) (by simp [hab, hba])
  | cons c t ih =>
    by_cases hbc : strLe b c <;> by_cases hac : strLe a c
    · simp only [insSorted, if_pos hbc, if_pos hac]
      by_cases hab : strLe a b <;> by_cases hba : strLe b a
      · have h : a = b := strLe_antisymm hab hba
        subst h; rfl
      · simp [insSorted, hab, hba, hac, hbc]
      · simp [insSorted, hab, hba, hac, hbc]
      · exact absurd (strLe_total a b) (by simp [hab, hba])
    · have hab : ¬ strLe a b := fun h => hac (strLe_trans h hbc)
      simp [insSorted, hbc, hac, hab]
    · have hba : ¬ strLe b a := fun h => hbc (strLe_trans h hac)
      simp [insSorted, hbc, hac, hba]
    · simp [insSorted, hbc, hac, ih]

instance : LeftCommutative insSorted := ⟨insSorted_comm⟩

/-- Enumeration of a finite set of strings in ascending order, defined by
structural folding so that it evaluates inside the kernel. -/
def setList (s : Finset String) : List String := Multiset.foldr insSorted [] s.1

theorem mem_insSorted (a b : String) (l : List String) :
    a ∈ insSorted b l ↔ a = b ∨ a ∈ l := by
  induction l with
  | nil => simp [insSorted]
  | cons c t ih =>
    by_cases h : strLe b c
    · simp [insSorted, h]
    · simp only [insSorted, if_neg h, List.mem_cons, ih]
      tauto

theorem mem_setList (a : String) (s : Finset String) : a ∈ setList s ↔ a ∈ s := by
  show a ∈ Multiset.foldr insSorted [] s.1 ↔ a ∈ s.1
  induction s.1 using Multiset.induction_on with
  | empty => simp [Multiset.foldr_zero]
  | cons b t ih => simp [Multiset.foldr_cons, mem_insSorted, ih]

theorem nodup_insSorted (a : String) (l : List String) (hl : l.Nodup) (ha : a ∉ l) :
    (insSorted a l).Nodup := by
  induction l with
  | nil => simp [insSorted]
  | cons c t ih =>
    by_cases h : strLe a c
    · simp only [insSorted, if_pos h]
      exact List.nodup_cons.mpr ⟨ha, hl⟩
    · simp only [insSorted, if_neg h, List.nodup_cons, mem_insSorted]
      refine ⟨?_, ih (List.nodup_cons.mp hl).2 (fun hm => ha (List.mem_cons_of_mem _ hm))⟩
      rintro (rfl | hm)
      · exact ha (List.mem_cons_self _ _)
      · exact (List.nodup_cons.mp hl).1 hm

/-- A plausible iteration order for CPython's string sets: it enumerates
every set without repetition and depends only on the set's elements. -/
def ValidSetOrder (f : Finset String → List String) : Prop :=
  ∀ s : Finset String, (f s).Nodup ∧ (f s).toFinset = s

theorem validSetOrder_setList : ValidSetOrder setList := by
  intro s
  induction s using Finset.induction_on with
  | empty => exact ⟨List.nodup_nil, rfl⟩
  | @insert a t ha ih =>
    have hfold : setList (insert a t) = insSorted a (setList t) := by
      show Multiset.foldr insSorted [] (insert a t).1 = _
      rw [Finset.insert_val, Multiset.ndinsert_of_not_mem ha, Multiset.foldr_cons]
      rfl
    constructor
    · rw [hfold]
      exact nodup_insSorted a _ ih.1 (fun hm => ha (by
        have := (mem_setList a t).mp hm
        exact this))
    · rw [hfold]
      ext x
      simp [mem_insSorted, mem_setList]

theorem validSetOrder_reverse (f : Finset String → List String) (hf : ValidSetOrder f) :
    ValidSetOrder (fun s => (f s).reverse) := by
  intro s
  refine ⟨List.nodup_reverse.mpr (hf s).1, ?_⟩
  rw [List.toFinset_reverse]
  exact (hf s).2

/-- A crawl state with the visited set rendered as an ascending list, so
that concrete states can be compared by evaluation. -/
def stateView (x : Except Unit CrawlState) :
    Except Unit (List String × List String × List PageResult) :=
  x.map (fun s => (s.queue, setList s.visited, s.scraped))

/-- The result of `crawl` with the returned `self.visited` set rendered as
an ascending list, so that concrete results can be compared by
evaluation. -/
def crawlView (env : Env) (self_base : String) (visited : Finset String)
    (tags : List (String × Option String)) (max_pages : Nat) :
    Except Unit (List String × List PageResult) :=
  (crawl env self_base visited tags max_pages).map (fun p => (setList p.1, p.2))

theorem crawlView_eval (env : Env) (sb : String) (v : Finset String)
    (tags : List (String × Option String)) (mp n : Nat)
    (res : Except Unit (List String × List PageResult))
    (h : (crawlFuel env sb tags mp n [sb] v []).map
        (Except.map (fun p => (setList p.1, p.2))) = some res) :
    crawlView env sb v tags mp = res := by
  cases hf : crawlFuel env sb tags mp n [sb] v [] with
  | none => rw [hf] at h; cases h
  | some r =>
    rw [hf] at h
    cases h
    show (crawl env sb v tags mp).map (fun p => (setList p.1, p.2)) = _
    unfold crawl
    rw [crawlFuel_sound env sb tags mp n _ _ _ r hf]

/-! Concrete sites used to exercise the crawler.  All internal URLs share
the netloc `x.com`; pages serve their own URL as body text, so
`anchorHrefs` can be keyed on the body.  `sortAsc` and `sortDesc` are two
iteration orders CPython's hash-randomised string sets can exhibit: both
enumerate each set without repetition and depend only on its elements. -/

def urlS : String := "http://x.com/"
def urlA : String := "http://x.com/a"
def urlB : String := "http://x.com/b"
def urlC : String := "http://x.com/c"
def urlExt : String := "http://other.example/y"

/-- Ascending set-iteration order. -/
def sortAsc (s : Finset String) : List String := setList s

/-- Descending set-iteration order. -/
def sortDesc (s : Finset String) : List String := (setList s).reverse

/-- A reliable transport serving every URL its own text as body. -/
def okTransport : String → Except String String := fun u => .ok u

/-- An HTML parser oracle whose every selector match is the document text. -/
def bodyTexts : String → String → Option String → List String := fun html _ _ => [html]

/-- Link graph `S → {A, B}`, `A → {C}`, `B → {C}`: the same link `C` is
discovered from two different pages. -/
def envDiamond : Env where
  transport := okTransport
  anchorHrefs := fun h =>
    if h == urlS then [urlA, urlB] else if h == urlA then [urlC] else
    if h == urlB then [urlC] else []
  urljoin := fun _ href => href
  findTexts := bodyTexts
  setOrder := sortAsc

/-- The spec's BFS example: seed `S` links to `{A, B}` and `A` links to
`{C}`, with ascending set-iteration order. -/
def envBfs : Env where
  transport := okTransport
  anchorHrefs := fun h =>
    if h == urlS then [urlA, urlB] else if h == urlA then [urlC] else []
  urljoin := fun _ href => href
  findTexts := bodyTexts
  setOrder := sortAsc

/-- The same site as `envBfs` under descending set-iteration order. -/
def envBfsRev : Env := { envBfs with setOrder := sortDesc }

/-- A page whose anchors point both inside (`/x`) and outside
(`other.example`) the seed's domain. -/
def envMixed : Env where
  transport := okTransport
  anchorHrefs := fun h => if h == urlS then ["http://x.com/x", urlExt] else []
  urljoin := fun _ href => href
  findTexts := bodyTexts
  setOrder := sortAsc

/-- Cycle `A → B → A`, crawled from seed `A`. -/
def envCycle : Env where
  transport := okTransport
  anchorHrefs := fun h => if h == urlA then [urlB] else if h == urlB then [urlA] else []
  urljoin := fun _ href => href
  findTexts := bodyTexts
  setOrder := sortAsc

/-- Seed linking to three pages `A`, `B`, `C` of which the middle one,
`B`, fails to fetch with a transport error. -/
def envFailMid : Env where
  transport := fun u => if u == urlB then .error "connection refused" else .ok u
  anchorHrefs := fun h => if h == urlS then [urlA, urlB, urlC] else []
  urljoin := fun _ href => href
  findTexts := bodyTexts
  setOrder := sortAsc

/-- The `n`-th URL of an infinite chain of internal pages: the seed is
`uFresh 0 = "http://s.com/"` and page `n` links to page `n + 1`, which has
never been seen before. -/
def uFresh (n : Nat) : String := String.mk ("http://s.com/".toList ++ List.replicate n 'a')

/-- A site that is an infinite chain of fresh internal links: every page's
body is its own URL, and every page links to exactly one fresh URL. -/
def envFresh : Env where
  transport := fun u => .ok u
  anchorHrefs := fun h => [h ++ "a"]
  urljoin := fun _ href => href
  findTexts := fun _ _ _ => []
  setOrder := setList

theorem filter_replicate_keep {p : Char → Bool} {c : Char} (h : p c = true) (n : Nat) :
    List.filter p (List.replicate n c) = List.replicate n c := by
  induction n with
  | zero => rfl
  | succ n ih => simp [List.replicate_succ, List.filter_cons, h, ih]

theorem takeWhile_colon_http (y : List Char) :
    List.takeWhile (fun c => c != ':') ('h' :: 't' :: 't' :: 'p' :: ':' :: y) =
      ['h', 't', 't', 'p'] := by
  rw [List.takeWhile_cons_of_pos (by decide), List.takeWhile_cons_of_pos (by decide),
    List.takeWhile_cons_of_pos (by decide), List.takeWhile_cons_of_pos (by decide),
    List.takeWhile_cons_of_neg (by decide)]

theorem dropWhile_colon_http (y : List Char) :
    List.dropWhile (fun c => c != ':') ('h' :: 't' :: 't' :: 'p' :: ':' :: y) = ':' :: y := by
  rw [List.dropWhile_cons_of_pos (by decide), List.dropWhile_cons_of_pos (by decide),
    List.dropWhile_cons_of_pos (by decide), List.dropWhile_cons_of_pos (by decide),
    List.dropWhile_cons_of_neg (by decide)]

theorem takeWhile_scom (y : List Char) :
    List.takeWhile (fun c => !(c == '/' || c == '?' || c == '#'))
      ('s' :: '.' :: 'c' :: 'o' :: 'm' :: '/' :: y) = ['s', '.', 'c', 'o', 'm'] := by
  rw [List.takeWhile_cons_of_pos (by decide), List.takeWhile_cons_of_pos (by decide),
    List.takeWhile_cons_of_pos (by decide), List.takeWhile_cons_of_pos (by decide),
    List.takeWhile_cons_of_pos (by decide), List.takeWhile_cons_of_neg (by decide)]

theorem netlocE_uFresh (n : Nat) : netlocE (uFresh n) = .ok "s.com" := by
  have hstrip : stripUnsafe ((uFresh n).toList) =
      'h' :: 't' :: 't' :: 'p' :: ':' :: '/' :: '/' :: 's' :: '.' :: 'c' :: 'o' :: 'm' :: '/' ::
        List.replicate n 'a' := by
    show stripUnsafe ("http://s.com/".toList ++ List.replicate n 'a') = _
    unfold stripUnsafe
    rw [List.filter_append, filter_replicate_keep (by decide)]
    rw [show List.filter (fun c => !(c == '\t' || c == '\r' || c == '\n')) "http://s.com/".toList =
      ['h', 't', 't', 'p', ':', '/', '/', 's', '.', 'c', 'o', 'm', '/'] from by decide]
    rfl
  have hafter : afterScheme (stripUnsafe ((uFresh n).toList)) =
      '/' :: '/' :: 's' :: '.' :: 'c' :: 'o' :: 'm' :: '/' :: List.replicate n 'a' := by
    rw [hstrip]
    unfold afterScheme
    rw [takeWhile_colon_http, dropWhile_colon_http]
    dsimp only [List.headD_cons]
    rw [if_pos (by decide)]
  unfold netlocE
  rw [hafter]
  dsimp only [List.take, List.drop]
  rw [if_pos rfl, takeWhile_scom]
  rfl

theorem uFresh_append_a (n : Nat) : uFresh n ++ "a" = uFresh (n + 1) := by
  show String.mk (("http://s.com/".toList ++ List.replicate n 'a') ++ ['a']) = _
  rw [List.append_assoc, ← List.replicate_succ']
  rfl

theorem uFresh_inj {m n : Nat} (h : uFresh m = uFresh n) : m = n := by
  have h2 : "http://s.com/".toList ++ List.replicate m 'a' =
      "http://s.com/".toList ++ List.replicate n 'a' := congrArg String.toList h
  have h3 := congrArg List.length h2
  simp only [List.length_append, List.length_replicate] at h3
  omega

theorem is_internal_uFresh (m n : Nat) : is_internal_url (uFresh m) (uFresh n) = .ok true := by
  unfold is_internal_url
  simp only [netlocE_uFresh]
  rfl

theorem setList_singleton (a : String) : setList {a} = [a] := rfl

theorem setList_insert_empty (a : String) : setList (insert a ∅) = [a] := rfl

theorem scrape_page_uFresh (n : Nat) :
    scrape_page envFresh (uFresh 0) (uFresh n) [] = .ok [("links", [uFresh (n + 1)])] := by
  have hjoin : ∀ a b : String, envFresh.urljoin a b = b := fun _ _ => rfl
  have hanch : envFresh.anchorHrefs (uFresh n) = [uFresh (n + 1)] := by
    show [uFresh n ++ "a"] = [uFresh (n + 1)]
    rw [uFresh_append_a]
  have hlinks : get_links envFresh (uFresh 0) (uFresh n) (uFresh n) = .ok {uFresh (n + 1)} := by
    unfold get_links
    rw [hanch, List.foldlM_cons]
    simp only [hjoin, is_internal_uFresh]
    rfl
  show (do
      let links ← get_links envFresh (uFresh 0) (uFresh n) (uFresh n)
      pure (dictInsert [] "links" (envFresh.setOrder links)) :
      Except Unit PageResult) = .ok [("links", [uFresh (n + 1)])]
  rw [hlinks]
  rfl

/-- On the infinite fresh-link chain, the loop always fills the budget
exactly: starting from the queue `[uFresh j]` with `d` pages still to
scrape, it ends with exactly `k` page results. -/
theorem crawlLoop_envFresh (k : Nat) :
    ∀ (d j : Nat) (V : Finset String) (s : List PageResult),
      (∀ m, uFresh m ∈ V → m < j) → s.length + d = k →
      ∃ V' res, crawlLoop envFresh (uFresh 0) [] k [uFresh j] V s = .ok (V', res) ∧
        res.length = k := by
  intro d
  induction d with
  | zero =>
    intro j V s hV hlen
    rw [crawlLoop.eq_def]
    dsimp only
    rw [dif_neg (by omega)]
    exact ⟨V, s, rfl, by omega⟩
  | succ d ih =>
    intro j V s hV hlen
    have hnotin : uFresh j ∉ V := fun h => absurd (hV j h) (lt_irrefl j)
    have hnotin2 : uFresh (j + 1) ∉ insert (uFresh j) V := by
      intro h
      rcases Finset.mem_insert.mp h with heq | hmem
      · exact absurd (uFresh_inj heq) (by omega)
      · exact absurd (hV _ hmem) (by omega)
    have hfilter : List.filter (fun l => decide (l ∉ insert (uFresh j) V)) [uFresh (j + 1)] =
        [uFresh (j + 1)] := by
      simp only [List.filter_cons, List.filter_nil]
      rw [if_pos (decide_eq_true hnotin2)]
    have hV' : ∀ m, uFresh m ∈ insert (uFresh j) V → m < j + 1 := by
      intro m hm
      rcases Finset.mem_insert.mp hm with heq | hmem
      · have := uFresh_inj heq
        omega
      · exact Nat.lt_succ_of_lt (hV m hmem)
    rw [crawlLoop.eq_def]
    dsimp only
    rw [dif_pos (by omega), if_neg hnotin, scrape_page_uFresh]
    dsimp only
    simp only [List.isEmpty_cons]
    rw [if_neg Bool.false_ne_true]
    rw [show dictGet [("links", [uFresh (j + 1)])] "links" [] = [uFresh (j + 1)] from rfl]
    rw [hfilter, List.nil_append]
    have hlen' : (s ++ [[("links", [uFresh (j + 1)])]]).length + d = k := by
      simp only [List.length_append, List.length_cons, List.length_nil]
      omega
    exact ih (j + 1) _ _ hV' hlen'

/-- The loop exits as soon as the queue is empty. -/
theorem crawlLoop_stops_queue_empty (env : Env) (sb : String)
    (tags : List (String × Option String)) (mp : Nat) (v : Finset String)
    (sc : List PageResult) : crawlLoop env sb tags mp [] v sc = .ok (v, sc) := by
  rw [crawlLoop.eq_def]

/-- The loop exits as soon as the page budget is exhausted, even when the
queue is non-empty. -/
theorem crawlLoop_stops_budget (env : Env) (sb : String)
    (tags : List (String × Option String)) (mp : Nat) (url : String) (rest : List String)
    (v : Finset String) (sc : List PageResult) (h : ¬ sc.length < mp) :
    crawlLoop env sb tags mp (url :: rest) v sc = .ok (v, sc) := by
  rw [crawlLoop.eq_def]
  dsimp only
  rw [dif_neg h]

/-- The number of recorded page results never exceeds the page budget. -/
theorem crawlLoop_budget (env : Env) (sb : String) (tags : List (String × Option String))
    (mp : Nat) (q : List String) (v : Finset String) (sc : List PageResult) :
    sc.length ≤ mp → ∀ p, crawlLoop env sb tags mp q v sc = .ok p → p.2.length ≤ mp := by
  induction q, v, sc using crawlLoop.induct env sb tags mp with
  | case1 v sc =>
    intro hle p hp
    rw [crawlLoop.eq_def] at hp
    cases hp
    exact hle
  | case2 v sc url rest hlen hv ih =>
    intro hle p hp
    rw [crawlLoop.eq_def] at hp
    dsimp only at hp
    rw [dif_pos hlen, if_pos hv] at hp
    exact ih hle p hp
  | case3 v sc url rest hlen hv e herr =>
    intro hle p hp
    rw [crawlLoop.eq_def] at hp
    dsimp only at hp
    rw [dif_pos hlen, if_neg hv, herr] at hp
    cases hp
  | case4 v sc url rest hlen hv pd hok hemp ih =>
    intro hle p hp
    rw [crawlLoop.eq_def] at hp
    dsimp only at hp
    rw [dif_pos hlen, if_neg hv, hok] at hp
    dsimp only at hp
    rw [if_pos hemp] at hp
    exact ih hle p hp
  | case5 v sc url rest hlen hv pd hok hemp nl q' ih =>
    intro hle p hp
    rw [crawlLoop.eq_def] at hp
    dsimp only at hp
    rw [dif_pos hlen, if_neg hv, hok] at hp
    dsimp only at hp
    rw [if_neg hemp] at hp
    refine ih ?_ p hp
    simp only [List.length_append, List.length_cons, List.length_nil]
    omega
  | case6 v sc url rest hlen =>
    intro hle p hp
    rw [crawlLoop.eq_def] at hp
    dsimp only at hp
    rw [dif_neg hlen] at hp
    cases hp
    exact hle

/-- The loop `crawlLoop` instrumented with the BFS layer (discovery depth) of every
queue entry and of every recorded result: the seed sits at depth 0 and a
link discovered on a page of depth `d` is enqueued at depth `d + 1`.  The
control flow is exactly `crawlLoop`'s; `crawlLoopD_fst` proves it. -/
def crawlLoopD (env : Env) (self_base : String) (tags : List (String × Option String))
    (max_pages : Nat) (queue : List (String × Nat)) (visited : Finset String)
    (scraped : List (PageResult × Nat)) :
    Except Unit (Finset String × List (PageResult × Nat)) :=
  match queue with
  | [] => .ok (visited, scraped)
  | (url, d) :: rest =>
    if _h : scraped.length < max_pages then
      if url ∈ visited then crawlLoopD env self_base tags max_pages rest visited scraped
      else
        match scrape_page env self_base url tags with
        | .error e => .error e
        | .ok page_data =>
          if page_data.isEmpty then
            crawlLoopD env self_base tags max_pages rest (insert url visited) scraped
          else
            let new_links := dictGet page_data "links" []
            crawlLoopD env self_base tags max_pages
              (rest ++ (new_links.filter (fun l => decide (l ∉ insert url visited))).map
                (fun l => (l, d + 1)))
              (insert url visited) (scraped ++ [(page_data, d)])
    else .ok (visited, scraped)
termination_by (max_pages - scraped.length, queue.length)
decreasing_by
  · exact Prod.Lex.right _ (by simp)
  · exact Prod.Lex.right _ (by simp)
  · simp only [List.length_append, List.length_cons, List.length_nil]
    exact Prod.Lex.left _ _ (by omega)

/-- Projecting the depth annotations away turns the instrumented loop back
into the source's loop. -/
theorem crawlLoopD_fst (env : Env) (sb : String) (tags : List (String × Option String))
    (mp : Nat) :
    ∀ (q : List (String × Nat)) (v : Finset String) (sc : List (PageResult × Nat)),
      crawlLoop env sb tags mp (q.map Prod.fst) v (sc.map Prod.fst) =
        (crawlLoopD env sb tags mp q v sc).map (fun p => (p.1, p.2.map Prod.fst)) := by
  intro q v sc
  induction q, v, sc using crawlLoopD.induct env sb tags mp with
  | case1 v sc =>
    rw [crawlLoop.eq_def, crawlLoopD.eq_def]
    rfl
  | case2 v sc url d rest hlen hv ih =>
    rw [crawlLoop.eq_def, crawlLoopD.eq_def]
    dsimp only [List.map_cons]
    rw [dif_pos (by simpa using hlen), if_pos hv, dif_pos hlen, if_pos hv]
    exact ih
  | case3 v sc url d rest hlen hv e herr =>
    rw [crawlLoop.eq_def, crawlLoopD.eq_def]
    dsimp only [List.map_cons]
    rw [dif_pos (by simpa using hlen), if_neg hv, dif_pos hlen, if_neg hv, herr]
    rfl
  | case4 v sc url d rest hlen hv pd hok hemp ih =>
    rw [crawlLoop.eq_def, crawlLoopD.eq_def]
    dsimp only [List.map_cons]
    rw [dif_pos (by simpa using hlen), if_neg hv, dif_pos hlen, if_neg hv, hok]
    dsimp only
    rw [if_pos hemp, if_pos hemp]
    exact ih
  | case5 v sc url d rest hlen hv pd hok hemp nl ih =>
    rw [crawlLoop.eq_def, crawlLoopD.eq_def]
    dsimp only [List.map_cons]
    rw [dif_pos (by simpa using hlen), if_neg hv, dif_pos hlen, if_neg hv, hok]
    dsimp only
    rw [if_neg hemp, if_neg hemp]
    have hmap : (rest ++ ((dictGet pd "links" []).filter
          (fun l => decide (l ∉ insert url v))).map (fun l => (l, d + 1))).map Prod.fst =
        rest.map Prod.fst ++ (dictGet pd "links" []).filter
          (fun l => decide (l ∉ insert url v)) := by
      simp only [List.map_append, List.map_map]
      rw [show (Prod.fst ∘ fun l : String => (l, d + 1)) = id from rfl, List.map_id]
    have hsc : (sc ++ [(pd, d)]).map Prod.fst = sc.map Prod.fst ++ [pd] := by
      simp
    rw [← hmap, ← hsc]
    exact ih
  | case6 v sc url d rest hlen =>
    rw [crawlLoop.eq_def, crawlLoopD.eq_def]
    dsimp only [List.map_cons]
    rw [dif_neg (by simpa using hlen), dif_neg hlen]
    rfl

/-- The two-layer window invariant of the BFS queue: depths are
nondecreasing along the queue and any two entries are within one layer of
each other. -/
def QOK (q : List (String × Nat)) : Prop :=
  List.Pairwise (fun a b => a.2 ≤ b.2) q ∧ ∀ x ∈ q, ∀ y ∈ q, y.2 ≤ x.2 + 1

theorem QOK_tail {x : String × Nat} {rest : List (String × Nat)} (h : QOK (x :: rest)) :
    QOK rest :=
  ⟨(List.pairwise_cons.mp h.1).2,
   fun a ha b hb => h.2 a (List.mem_cons_of_mem _ ha) b (List.mem_cons_of_mem _ hb)⟩

theorem QOK_expand {url : String} {d : Nat} {rest : List (String × Nat)}
    (h : QOK ((url, d) :: rest)) (news : List (String × Nat))
    (hnews : ∀ y ∈ news, y.2 = d + 1) : QOK (rest ++ news) := by
  obtain ⟨hpair, hspan⟩ := h
  have hrest_ge : ∀ y ∈ rest, d ≤ y.2 := fun y hy => (List.pairwise_cons.mp hpair).1 y hy
  have hrest_le : ∀ y ∈ rest, y.2 ≤ d + 1 := fun y hy =>
    hspan (url, d) (List.mem_cons_self _ _) y (List.mem_cons_of_mem _ hy)
  constructor
  · rw [List.pairwise_append]
    refine ⟨(List.pairwise_cons.mp hpair).2, ?_, ?_⟩
    · exact List.Pairwise.imp_of_mem (fun ha hb _ => by rw [hnews _ ha, hnews _ hb])
        (List.pairwise_of_forall_mem_list (fun _ _ _ _ => trivial))
    · intro a ha b hb
      rw [hnews b hb]
      exact hrest_le a ha
  · intro x hx y hy
    rcases List.mem_append.mp hx with hx | hx <;> rcases List.mem_append.mp hy with hy | hy
    · exact hspan x (List.mem_cons_of_mem _ hx) y (List.mem_cons_of_mem _ hy)
    · rw [hnews y hy]
      have := hrest_ge x hx
      omega
    · rw [hnews x hx]
      have := hrest_le y hy
      omega
    · rw [hnews x hx, hnews y hy]
      omega

/-- Along a run whose queue satisfies the window invariant, the recorded
depths are nondecreasing: results come out in BFS layer order. -/
theorem crawlLoopD_sorted (env : Env) (sb : String) (tags : List (String × Option String))
    (mp : Nat) :
    ∀ (q : List (String × Nat)) (v : Finset String) (sc : List (PageResult × Nat)),
      QOK q → List.Pairwise (fun a b => a.2 ≤ b.2) sc →
      (∀ s ∈ sc, ∀ y ∈ q, s.2 ≤ y.2) →
      ∀ p, crawlLoopD env sb tags mp q v sc = .ok p →
        List.Pairwise (fun a b => a.2 ≤ b.2) p.2 := by
  intro q v sc
  induction q, v, sc using crawlLoopD.induct env sb tags mp with
  | case1 v sc =>
    intro _ hsc _ p hp
    rw [crawlLoopD.eq_def] at hp
    cases hp
    exact hsc
  | case2 v sc url d rest hlen hv ih =>
    intro hq hsc hcross p hp
    rw [crawlLoopD.eq_def] at hp
    dsimp only at hp
    rw [dif_pos hlen, if_pos hv] at hp
    exact ih (QOK_tail hq) hsc
      (fun s hs y hy => hcross s hs y (List.mem_cons_of_mem _ hy)) p hp
  | case3 v sc url d rest hlen hv e herr =>
    intro hq hsc hcross p hp
    rw [crawlLoopD.eq_def] at hp
    dsimp only at hp
    rw [dif_pos hlen, if_neg hv, herr] at hp
    cases hp
  | case4 v sc url d rest hlen hv pd hok hemp ih =>
    intro hq hsc hcross p hp
    rw [crawlLoopD.eq_def] at hp
    dsimp only at hp
    rw [dif_pos hlen, if_neg hv, hok] at hp
    dsimp only at hp
    rw [if_pos hemp] at hp
    exact ih (QOK_tail hq) hsc
      (fun s hs y hy => hcross s hs y (List.mem_cons_of_mem _ hy)) p hp
  | case5 v sc url d rest hlen hv pd hok hemp nl ih =>
    intro hq hsc hcross p hp
    rw [crawlLoopD.eq_def] at hp
    dsimp only at hp
    rw [dif_pos hlen, if_neg hv, hok] at hp
    dsimp only at hp
    rw [if_neg hemp] at hp
    have hnews : ∀ y ∈ ((dictGet pd "links" []).filter
        (fun l => decide (l ∉ insert url v))).map (fun l => (l, d + 1)), y.2 = d + 1 := by
      intro y hy
      obtain ⟨l, -, rfl⟩ := List.mem_map.mp hy
      rfl
    have hd_mem : (url, d) ∈ (url, d) :: rest := List.mem_cons_self _ _
    refine ih (QOK_expand hq _ hnews) ?_ ?_ p hp
    · rw [List.pairwise_append]
      refine ⟨hsc, List.pairwise_singleton _ _, ?_⟩
      intro a ha b hb
      rw [List.mem_singleton.mp hb]
      exact hcross a ha (url, d) hd_mem
    · intro s hs y hy
      rcases List.mem_append.mp hs with hs | hs
      · rcases List.mem_append.mp hy with hy | hy
        · exact hcross s hs y (List.mem_cons_of_mem _ hy)
        · rw [hnews y hy]
          have := hcross s hs (url, d) hd_mem
          omega
      · rw [List.mem_singleton.mp hs]
        rcases List.mem_append.mp hy with hy | hy
        · exact (List.pairwise_cons.mp hq.1).1 y hy
        · rw [hnews y hy]
          omega
  | case6 v sc url d rest hlen =>
    intro _ hsc _ p hp
    rw [crawlLoopD.eq_def] at hp
    dsimp only at hp
    rw [dif_neg hlen] at hp
    cases hp
    exact hsc

/-- The method `crawl` instrumented with BFS layers: the seed starts at depth 0. -/
def crawlD (env : Env) (self_base : String) (visited : Finset String)
    (tags : List (String × Option String)) (max_pages : Nat) :
    Except Unit (Finset String × List (PageResult × Nat)) :=
  crawlLoopD env self_base tags max_pages [(self_base, 0)] visited []

theorem crawl_eq_crawlD (env : Env) (sb : String) (v : Finset String)
    (tags : List (String × Option String)) (mp : Nat) :
    crawl env sb v tags mp = (crawlD env sb v tags mp).map (fun p => (p.1, p.2.map Prod.fst)) := by
  have h := crawlLoopD_fst env sb tags mp [(sb, 0)] v []
  simpa [crawl, crawlD] using h

theorem crawlD_sorted (env : Env) (sb : String) (v : Finset String)
    (tags : List (String × Option String)) (mp : Nat)
    (p : Finset String × List (PageResult × Nat)) (hp : crawlD env sb v tags mp = .ok p) :
    List.Pairwise (fun a b => a.2 ≤ b.2) p.2 := by
  refine crawlLoopD_sorted env sb tags mp [(sb, 0)] v [] ?_ ?_ ?_ p hp
  · exact ⟨List.pairwise_singleton _ _, by simp⟩
  · exact List.Pairwise.nil
  · simp

/-- Membership in the accumulator of `get_links`'s fold: an URL is
collected exactly when it was already accumulated or is a resolved anchor
that passes the internal check. -/
theorem get_links_fold_spec (env : Env) (sb burl : String) :
    ∀ (hrefs : List String) (acc s : Finset String),
      (List.foldlM (fun links href => do
          let url := env.urljoin burl href
          if (← is_internal_url sb url) then pure (insert url links) else pure links)
        acc hrefs : Except Unit (Finset String)) = .ok s →
      ∀ u, u ∈ s ↔ u ∈ acc ∨
        (is_internal_url sb u = .ok true ∧ u ∈ hrefs.map (env.urljoin burl)) := by
  intro hrefs
  induction hrefs with
  | nil =>
    intro acc s h u
    rw [List.foldlM_nil] at h
    cases h
    simp
  | cons head tl ih =>
    intro acc s h u
    rw [List.foldlM_cons] at h
    dsimp only at h
    cases hint : is_internal_url sb (env.urljoin burl head) with
    | error e =>
      rw [hint] at h
      cases h
    | ok b =>
      rw [hint] at h
      cases b with
      | true =>
        replace h : (List.foldlM (fun links href => do
            let url := env.urljoin burl href
            if (← is_internal_url sb url) then pure (insert url links) else pure links)
          (insert (env.urljoin burl head) acc) tl : Except Unit (Finset String)) = .ok s := h
        rw [ih _ _ h u, Finset.mem_insert, List.map_cons, List.mem_cons]
        constructor
        · rintro ((rfl | hacc) | ⟨hu, hm⟩)
          · exact Or.inr ⟨hint, Or.inl rfl⟩
          · exact Or.inl hacc
          · exact Or.inr ⟨hu, Or.inr hm⟩
        · rintro (hacc | ⟨hu, rfl | hm⟩)
          · exact Or.inl (Or.inr hacc)
          · exact Or.inl (Or.inl rfl)
          · exact Or.inr ⟨hu, hm⟩
      | false =>
        replace h : (List.foldlM (fun links href => do
            let url := env.urljoin burl href
            if (← is_internal_url sb url) then pure (insert url links) else pure links)
          acc tl : Except Unit (Finset String)) = .ok s := h
        rw [ih _ _ h u, List.map_cons, List.mem_cons]
        constructor
        · rintro (hacc | ⟨hu, hm⟩)
          · exact Or.inl hacc
          · exact Or.inr ⟨hu, Or.inr hm⟩
        · rintro (hacc | ⟨hu, rfl | hm⟩)
          · exact Or.inl hacc
          · exact absurd (hint.symm.trans hu) (by simp)
          · exact Or.inr ⟨hu, hm⟩

/-- Characterisation of `get_links`: it returns exactly the resolved anchor targets that pass the
internal-URL check against the scraper's base URL — its output is filtered
by scope inside the extractor. -/
theorem get_links_char (env : Env) (sb html burl : String) (s : Finset String)
    (h : get_links env sb html burl = .ok s) (u : String) :
    u ∈ s ↔ is_internal_url sb u = .ok true ∧ u ∈ (env.anchorHrefs html).map (env.urljoin burl) := by
  unfold get_links at h
  have hspec := get_links_fold_spec env sb burl (env.anchorHrefs html) ∅ s h u
  simpa using hspec

/-- The authority characters `urlsplit` inspects for `s`, before the
bracket validation (empty when the URL has no `//`-led authority). -/
def authorityChars (s : String) : List Char :=
  let u := afterScheme (stripUnsafe s.toList)
  if u.take 2 = ['/', '/'] then
    (u.drop 2).takeWhile (fun c => !(c == '/' || c == '?' || c == '#'))
  else []

/-- Whether `urlparse` raises `ValueError: Invalid IPv6 URL` on `s`: the
authority contains `[` without `]` or `]` without `[`. -/
def bracketMismatch (s : String) : Bool :=
  let nl := authorityChars s
  (nl.contains '[' && !(nl.contains ']')) || (nl.contains ']' && !(nl.contains '['))

theorem netlocE_error_iff (s : String) : netlocE s = .error () ↔ bracketMismatch s = true := by
  simp only [netlocE, bracketMismatch, authorityChars]
  by_cases h2 : (afterScheme (stripUnsafe s.toList)).take 2 = ['/', '/']
  · rw [if_pos h2, if_pos h2]
    generalize ((afterScheme (stripUnsafe s.toList)).drop 2).takeWhile
      (fun c => !(c == '/' || c == '?' || c == '#')) = nl
    by_cases hm : (nl.contains '[' && !(nl.contains ']') ||
        (nl.contains ']' && !(nl.contains '['))) = true
    · rw [if_pos hm]
      exact iff_of_true rfl hm
    · rw [if_neg hm]
      exact iff_of_false (by simp) hm
  · rw [if_neg h2, if_neg h2]
    simp

theorem netlocE_ok_of_no_mismatch (s : String) (h : bracketMismatch s = false) :
    ∃ nl, netlocE s = .ok nl := by
  cases hn : netlocE s with
  | error e =>
    cases e
    rw [netlocE_error_iff] at hn
    rw [hn] at h
    cases h
  | ok nl => exact ⟨nl, rfl⟩

/-- Evaluation of `is_internal_url` once both `urlparse` calls succeed. -/
theorem is_internal_eval (base url n1 n2 : String) (h1 : netlocE url = .ok n1)
    (h2 : netlocE base = .ok n2) : is_internal_url base url = .ok (n1 == n2) := by
  unfold is_internal_url
  rw [h1]
  show (netlocE base).bind (fun v => pure (n1 == v)) = Except.ok (n1 == n2)
  rw [h2]
  rfl

theorem is_internal_total (base url : String) (hu : bracketMismatch url = false)
    (hb : bracketMismatch base = false) : ∃ b, is_internal_url base url = .ok b := by
  obtain ⟨n1, h1⟩ := netlocE_ok_of_no_mismatch url hu
  obtain ⟨n2, h2⟩ := netlocE_ok_of_no_mismatch base hb
  exact ⟨n1 == n2, is_internal_eval base url n1 n2 h1 h2⟩

theorem is_internal_malformed_external (base url nb : String)
    (hu : netlocE url = .ok "") (hb : netlocE base = .ok nb) (hnb : nb ≠ "") :
    is_internal_url base url = .ok false := by
  have hbe : (("" : String) == nb) = false := beq_eq_false_iff_ne.mpr (Ne.symm hnb)
  have h := is_internal_eval base url "" nb hu hb
  rw [hbe] at h
  exact h

/-- One-step unfolding equations of the fuelled loop. -/
theorem crawlFuel_succ_nil (env : Env) (sb : String) (tags : List (String × Option String))
    (mp n : Nat) (v : Finset String) (sc : List PageResult) :
    crawlFuel env sb tags mp (n + 1) [] v sc = some (.ok (v, sc)) := rfl

theorem crawlFuel_succ_cons (env : Env) (sb : String) (tags : List (String × Option String))
    (mp n : Nat) (url : String) (rest : List String) (v : Finset String)
    (sc : List PageResult) :
    crawlFuel env sb tags mp (n + 1) (url :: rest) v sc =
      if sc.length < mp then
        if url ∈ v then crawlFuel env sb tags mp n rest v sc
        else
          match scrape_page env sb url tags with
          | .error e => some (.error e)
          | .ok page_data =>
            if page_data.isEmpty then crawlFuel env sb tags mp n rest (insert url v) sc
            else
              crawlFuel env sb tags mp n
                (rest ++ (dictGet page_data "links" []).filter
                  (fun l => decide (l ∉ insert url v)))
                (insert url v) (sc ++ [page_data])
      else some (.ok (v, sc)) := rfl

/-- For every environment and every starting state there is enough fuel:
the crawl loop terminates. -/
theorem crawlFuel_exists (env : Env) (sb : String) (tags : List (String × Option String))
    (mp : Nat) :
    ∀ (q : List String) (v : Finset String) (sc : List PageResult),
      ∃ n, crawlFuel env sb tags mp n q v sc = some (crawlLoop env sb tags mp q v sc) := by
  intro q v sc
  induction q, v, sc using crawlLoop.induct env sb tags mp with
  | case1 v sc =>
    refine ⟨1, ?_⟩
    rw [crawlLoop_stops_queue_empty]
    rfl
  | case2 v sc url rest hlen hv ih =>
    obtain ⟨n, hn⟩ := ih
    refine ⟨n + 1, ?_⟩
    have hstep : crawlLoop env sb tags mp (url :: rest) v sc =
        crawlLoop env sb tags mp rest v sc := by
      rw [crawlLoop.eq_def]
      dsimp only
      rw [dif_pos hlen, if_pos hv]
    rw [hstep, ← hn, crawlFuel_succ_cons, if_pos hlen, if_pos hv]
  | case3 v sc url rest hlen hv e herr =>
    refine ⟨1, ?_⟩
    have hstep : crawlLoop env sb tags mp (url :: rest) v sc = .error e := by
      rw [crawlLoop.eq_def]
      dsimp only
      rw [dif_pos hlen, if_neg hv, herr]
    rw [hstep, crawlFuel_succ_cons, if_pos hlen, if_neg hv, herr]
  | case4 v sc url rest hlen hv pd hok hemp ih =>
    obtain ⟨n, hn⟩ := ih
    refine ⟨n + 1, ?_⟩
    have hstep : crawlLoop env sb tags mp (url :: rest) v sc =
        crawlLoop env sb tags mp rest (insert url v) sc := by
      rw [crawlLoop.eq_def]
      dsimp only
      rw [dif_pos hlen, if_neg hv, hok]
      dsimp only
      rw [if_pos hemp]
    rw [hstep, ← hn, crawlFuel_succ_cons, if_pos hlen, if_neg hv, hok]
    dsimp only
    rw [if_pos hemp]
  | case5 v sc url rest hlen hv pd hok hemp nl q' ih =>
    obtain ⟨n, hn⟩ := ih
    refine ⟨n + 1, ?_⟩
    have hstep : crawlLoop env sb tags mp (url :: rest) v sc =
        crawlLoop env sb tags mp
          (rest ++ (dictGet pd "links" []).filter (fun l => decide (l ∉ insert url v)))
          (insert url v) (sc ++ [pd]) := by
      rw [crawlLoop.eq_def]
      dsimp only
      rw [dif_pos hlen, if_neg hv, hok]
      dsimp only
      rw [if_neg hemp]
    rw [hstep, ← hn, crawlFuel_succ_cons, if_pos hlen, if_neg hv, hok]
    dsimp only
    rw [if_neg hemp]
  | case6 v sc url rest hlen =>
    refine ⟨1, ?_⟩
    rw [crawlLoop_stops_budget env sb tags mp url rest v sc hlen, crawlFuel_succ_cons,
      if_neg hlen]

/-- A transport failure makes `scrape_page` return the empty dict `{}`,
not raise. -/
theorem scrape_page_transport_error (env : Env) (sb url : String)
    (tags : List (String × Option String)) (e : String) (h : env.transport url = .error e) :
    scrape_page env sb url tags = .ok [] := by
  unfold scrape_page fetch_html
  rw [h]

/-- A loop iteration whose head URL fails to fetch just marks the URL
visited and drops it: no page result is recorded, nothing is enqueued, and
the loop goes on with the rest of the queue. -/
theorem crawlStep_transport_error (env : Env) (sb : String)
    (tags : List (String × Option String)) (mp : Nat) (s : CrawlState) (url : String)
    (rest : List String) (e : String) (hq : s.queue = url :: rest)
    (hlen : s.scraped.length < mp) (hv : url ∉ s.visited)
    (ht : env.transport url = .error e) :
    crawlStep env sb tags mp s = some (.ok ⟨rest, insert url s.visited, s.scraped⟩) := by
  unfold crawlStep
  rw [hq]
  dsimp only
  rw [if_pos hlen, if_neg hv, scrape_page_transport_error env sb url tags e ht]
  rfl

/-- The visited set changes only at dequeue time: one iteration adds
exactly the dequeued URL (when new) and never anything else. -/
theorem crawlStep_visited_eq (env : Env) (sb : String) (tags : List (String × Option String))
    (mp : Nat) {s s' : CrawlState} (url : String) (rest : List String)
    (hq : s.queue = url :: rest) (h : crawlStep env sb tags mp s = some (.ok s')) :
    s'.visited = if url ∈ s.visited then s.visited else insert url s.visited := by
  obtain ⟨url', rest', hq', hlen, hcase⟩ := crawlStep_ok_inversion env sb tags mp h
  rw [hq] at hq'
  cases hq'
  rcases hcase with ⟨hv, rfl⟩ | ⟨hv, pd, hok, ⟨hemp, rfl⟩ | ⟨hemp, rfl⟩⟩
  · rw [if_pos hv]
  · rw [if_neg hv]
  · rw [if_neg hv]

/-! Claim theorems. -/

/-- C1 counterexample: on the diamond site (`S → {A, B}`, `A → {C}`,
`B → {C}`) the URL `A` sits in the queue after one iteration but is not in
VisitedSet (so URLs are not marked visited when accepted into the queue),
and after three iterations the pending queue holds `C` twice (so the same
URL can appear in the queue more than once when two pages discover it
before it is dequeued). -/
theorem c1_queue_dup_counterexample :
    stateView (crawlStepN envDiamond urlS [] 10 1 ⟨[urlS], ∅, []⟩) =
      .ok ([urlA, urlB], [urlS], [[("links", [urlA, urlB])]]) ∧
    urlA ∈ [urlA, urlB] ∧ urlA ∉ [urlS] ∧
    stateView (crawlStepN envDiamond urlS [] 10 3 ⟨[urlS], ∅, []⟩) =
      .ok ([urlC, urlC], [urlS, urlA, urlB],
        [[("links", [urlA, urlB])], [("links", [urlC])], [("links", [urlC])]]) ∧
    ¬ ([urlC, urlC] : List String).Nodup := by
  refine ⟨by decide, by decide, by decide, by decide, by decide⟩

/-- C1 amended: a URL is added to VisitedSet at most once, at the moment it
is first dequeued — one loop iteration adds exactly the dequeued URL to
VisitedSet when it is new and nothing otherwise (in particular enqueued
links are not marked visited), and the visited set only grows afterwards.
The queue, however, may meanwhile contain the same pending URL more than
once. -/
theorem c1_visited_at_dequeue (env : Env) (sb : String)
    (tags : List (String × Option String)) (mp : Nat) (s s' : CrawlState) (url : String)
    (rest : List String) (hq : s.queue = url :: rest)
    (hstep : crawlStep env sb tags mp s = some (.ok s')) :
    s'.visited = (if url ∈ s.visited then s.visited else insert url s.visited) ∧
    ∀ s'', Reaches env sb tags mp s' s'' → s'.visited ⊆ s''.visited :=
  ⟨crawlStep_visited_eq env sb tags mp url rest hq hstep,
   fun _ hr => reaches_visited_mono env sb tags mp hr⟩

/-- C1 witness: the first iteration on the diamond site marks exactly the
dequeued seed visited. -/
theorem c1_visited_at_dequeue_witness :
    (⟨[urlA, urlB], insert urlS ∅, [[("links", [urlA, urlB])]]⟩ : CrawlState).visited =
      (if urlS ∈ (∅ : Finset String) then (∅ : Finset String) else insert urlS ∅) ∧
    ∀ s'', Reaches envDiamond urlS [] 10
        ⟨[urlA, urlB], insert urlS ∅, [[("links", [urlA, urlB])]]⟩ s'' →
      (⟨[urlA, urlB], insert urlS ∅, [[("links", [urlA, urlB])]]⟩ : CrawlState).visited ⊆
        s''.visited :=
  c1_visited_at_dequeue envDiamond urlS [] 10 ⟨[urlS], ∅, []⟩
    ⟨[urlA, urlB], insert urlS ∅, [[("links", [urlA, urlB])]]⟩ urlS [] rfl rfl

/-- C2: the crawl respects its page budget — every successful crawl returns
at most `max_pages` results; the loop stops exactly when the queue is empty
or the budget is reached, whichever comes first; and on the infinite
fresh-link chain every budget `k` yields exactly `k` results. -/
theorem c2_budget_respect :
    (∀ (env : Env) (sb : String) (tags : List (String × Option String)) (k : Nat)
        (v : Finset String) (p : Finset String × List PageResult),
        crawl env sb v tags k = .ok p → p.2.length ≤ k) ∧
    (∀ (env : Env) (sb : String) (tags : List (String × Option String)) (k : Nat)
        (v : Finset String) (sc : List PageResult),
        crawlLoop env sb tags k [] v sc = .ok (v, sc)) ∧
    (∀ (env : Env) (sb : String) (tags : List (String × Option String)) (k : Nat)
        (url : String) (rest : List String) (v : Finset String) (sc : List PageResult),
        ¬ sc.length < k → crawlLoop env sb tags k (url :: rest) v sc = .ok (v, sc)) ∧
    (∀ k : Nat, ∃ p, crawl envFresh (uFresh 0) ∅ [] k = .ok p ∧ p.2.length = k) := by
  refine ⟨?_, crawlLoop_stops_queue_empty, crawlLoop_stops_budget, ?_⟩
  · intro env sb tags k v p hp
    exact crawlLoop_budget env sb tags k [sb] v [] (Nat.zero_le k) p hp
  · intro k
    obtain ⟨V', res, h1, h2⟩ := crawlLoop_envFresh k k 0 ∅ []
      (fun m hm => absurd hm (Finset.not_mem_empty _)) (Nat.zero_add k)
    exact ⟨(V', res), h1, h2⟩

/-- C2 witness: with budget 2 the fresh-link chain produces exactly two
results. -/
theorem c2_budget_respect_witness :
    ∃ p, crawl envFresh (uFresh 0) ∅ [] 2 = .ok p ∧ p.2.length = 2 :=
  c2_budget_respect.2.2.2 2

/-- C3: once a URL has been processed (dequeued while unvisited) it is in
VisitedSet in every later state, so it can never be processed again and so
contributes at most one PageResult; a loop iteration never enqueues a URL
that is in VisitedSet when the enqueue happens; and crawling the cycle
`A → B → A` yields exactly one result for `A` and one for `B`. -/
theorem c3_no_reprocessing :
    (∀ (env : Env) (sb : String) (tags : List (String × Option String)) (mp : Nat)
        (s s' s'' : CrawlState) (url : String) (rest : List String),
        s.queue = url :: rest → url ∉ s.visited →
        crawlStep env sb tags mp s = some (.ok s') →
        Reaches env sb tags mp s' s'' → url ∈ s''.visited) ∧
    (∀ (env : Env) (sb : String) (tags : List (String × Option String)) (mp : Nat)
        (s s' : CrawlState), crawlStep env sb tags mp s = some (.ok s') →
        ∀ l ∈ s'.queue, l ∈ s.queue.tail ∨ l ∉ s'.visited) ∧
    crawlView envCycle urlA ∅ [] 10 =
      .ok ([urlA, urlB], [[("links", [urlB])], [("links", [urlA])]]) := by
  refine ⟨?_, ?_, ?_⟩
  · intro env sb tags mp s s' s'' url rest hq hv hstep hr
    have hins : url ∈ s'.visited := by
      rw [crawlStep_visited_eq env sb tags mp url rest hq hstep, if_neg hv]
      exact Finset.mem_insert_self _ _
    exact reaches_visited_mono env sb tags mp hr hins
  · intro env sb tags mp s s' hstep l hl
    obtain ⟨url, rest, hq, hlen, hcase⟩ := crawlStep_ok_inversion env sb tags mp hstep
    rcases hcase with ⟨hv, rfl⟩ | ⟨hv, pd, hok, ⟨hemp, rfl⟩ | ⟨hemp, rfl⟩⟩
    · exact Or.inl (by rw [hq]; exact hl)
    · exact Or.inl (by rw [hq]; exact hl)
    · dsimp only at hl
      rcases List.mem_append.mp hl with hl | hl
      · exact Or.inl (by rw [hq]; exact hl)
      · right
        have := List.of_mem_filter hl
        simpa using this
  · exact crawlView_eval envCycle urlA ∅ [] 10 5 _ (by decide)

/-- C3 witness: after the first iteration of the cycle crawl, the seed `A`
stays visited in the reached state itself. -/
theorem c3_no_reprocessing_witness :
    urlA ∈ (⟨[urlB], insert urlA ∅, [[("links", [urlB])]]⟩ : CrawlState).visited :=
  c3_no_reprocessing.1 envCycle urlA [] 10 ⟨[urlA], ∅, []⟩
    ⟨[urlB], insert urlA ∅, [[("links", [urlB])]]⟩
    ⟨[urlB], insert urlA ∅, [[("links", [urlB])]]⟩ urlA []
    rfl (Finset.not_mem_empty _) rfl (Reaches.refl _)

/-- Concrete evaluation of the crawl-and-serialise pipeline through the
fuelled loop. -/
theorem crawl_data_eval (env : Env) (sb : String) (tags : List (String × Option String))
    (mp n : Nat) (res : List PageResult)
    (h : (crawlFuel env sb tags mp n [sb] ∅ []).map (Except.map Prod.snd) = some (.ok res)) :
    crawl_and_serialize env sb tags mp = .ok (renderCrawl res) := by
  cases hf : crawlFuel env sb tags mp n [sb] ∅ [] with
  | none => rw [hf] at h; cases h
  | some r =>
    rw [hf] at h
    cases r with
    | error e => simp [Except.map] at h
    | ok p =>
      have hres : p.2 = res := by simpa [Except.map] using h
      unfold crawl_and_serialize crawl
      rw [crawlFuel_sound env sb tags mp n _ _ _ _ hf, ← hres]
      rfl

/-- C4 counterexample: two environments that agree on the transport, the
anchors, the URL resolution and the selector extraction — differing only in
the iteration order of the links `set`, both orders being hash-seed
dependent behaviours of CPython — serialise the very same crawl to
different bytes.  The pipeline is not a function of the crawl inputs
alone. -/
theorem c4_set_order_counterexample :
    envBfsRev.transport = envBfs.transport ∧
    envBfsRev.anchorHrefs = envBfs.anchorHrefs ∧
    envBfsRev.urljoin = envBfs.urljoin ∧
    envBfsRev.findTexts = envBfs.findTexts ∧
    crawl_and_serialize envBfs urlS [] 1 ≠ crawl_and_serialize envBfsRev urlS [] 1 := by
  refine ⟨rfl, rfl, rfl, rfl, ?_⟩
  rw [crawl_data_eval envBfs urlS [] 1 3 [[("links", [urlA, urlB])]] (by decide),
    crawl_data_eval envBfsRev urlS [] 1 3 [[("links", [urlB, urlA])]] (by decide)]
  decide

/-- C4 amended: the crawl-and-serialise pipeline is a deterministic
function of the crawl inputs TOGETHER WITH the set-iteration order used by
`list(...)` on the links set — two environments that agree on all five
collaborator functions produce identical output, and with the ascending
order fixed the example crawl always serialises to these exact bytes — but
as the counterexample shows, different hash-seed-dependent set orders
change the bytes. -/
theorem c4_deterministic_given_set_order :
    (∀ (env₁ env₂ : Env) (sb : String) (tags : List (String × Option String)) (k : Nat),
        env₁.transport = env₂.transport → env₁.anchorHrefs = env₂.anchorHrefs →
        env₁.urljoin = env₂.urljoin → env₁.findTexts = env₂.findTexts →
        env₁.setOrder = env₂.setOrder →
        crawl_and_serialize env₁ sb tags k = crawl_and_serialize env₂ sb tags k) ∧
    crawl_and_serialize envBfs urlS [] 1 =
      .ok "[\n    \x7b\n        \"links\": [\n            \"http://x.com/a\",\n            \"http://x.com/b\"\n        ]\n    \x7d\n]" := by
  constructor
  · intro env₁ env₂ sb tags k h1 h2 h3 h4 h5
    cases env₁
    cases env₂
    dsimp only at h1 h2 h3 h4 h5
    subst h1
    subst h2
    subst h3
    subst h4
    subst h5
    rfl
  · rw [crawl_data_eval envBfs urlS [] 1 3 [[("links", [urlA, urlB])]] (by decide)]
    decide

/-- C4 witness: the determinism half applied to one concrete environment
against itself. -/
theorem c4_deterministic_given_set_order_witness :
    crawl_and_serialize envBfs urlS [] 1 = crawl_and_serialize envBfs urlS [] 1 :=
  c4_deterministic_given_set_order.1 envBfs envBfs urlS [] 1 rfl rfl rfl rfl rfl

/-- C5 counterexample: a page whose anchors resolve to one in-domain and
one out-of-domain URL — `get_links` keeps only the in-domain one, so the
extractor's output IS filtered by the crawl's origin domain, contrary to
the claim that it returns all anchor targets. -/
theorem c5_external_filtered_counterexample :
    (get_links envMixed urlS urlS urlS).map setList = .ok ["http://x.com/x"] ∧
    urlExt ∈ envMixed.anchorHrefs urlS ∧
    envMixed.urljoin urlS urlExt = urlExt ∧
    urlExt ∉ ["http://x.com/x"] := by
  refine ⟨by decide, by decide, rfl, by decide⟩

/-- C5 amended: `get_links` returns the de-duplicated set of anchor href
targets resolved against the page URL and then FILTERED by the scope check
`is_internal_url` against the scraper's base URL: a URL is in the result
exactly when it is a resolved anchor target that the scope filter accepts,
so scope filtering happens inside the extractor, not only in the crawl
engine. -/
theorem c5_get_links_scope_filtered (env : Env) (sb html burl : String) (s : Finset String)
    (h : get_links env sb html burl = .ok s) (u : String) :
    u ∈ s ↔ is_internal_url sb u = .ok true ∧
      u ∈ (env.anchorHrefs html).map (env.urljoin burl) :=
  get_links_char env sb html burl s h u

/-- C5 witness: the in-domain link of the mixed page is collected because
it is an internal resolved anchor. -/
theorem c5_get_links_scope_filtered_witness :
    "http://x.com/x" ∈ ({"http://x.com/x"} : Finset String) ↔
      is_internal_url urlS "http://x.com/x" = .ok true ∧
      "http://x.com/x" ∈ (envMixed.anchorHrefs urlS).map (envMixed.urljoin urlS) :=
  c5_get_links_scope_filtered envMixed urlS urlS urlS {"http://x.com/x"} rfl "http://x.com/x"

/-- C6 counterexample: two identical `crawl` calls on the same scraper
instance do not return the same result — the first call visits four pages;
the second call, started with the `self.visited` set the first call left
behind, immediately skips the seed and returns no results at all.
VisitedSet is instance state, not ephemeral per run. -/
theorem c6_visited_persists_counterexample :
    crawlView envBfs urlS ∅ [] 10 =
      .ok ([urlS, urlA, urlB, urlC],
        [[("links", [urlA, urlB])], [("links", [urlC])], [("links", [])], [("links", [])]]) ∧
    crawlView envBfs urlS (insert urlC (insert urlB (insert urlA (insert urlS ∅)))) [] 10 =
      .ok ([urlS, urlA, urlB, urlC], []) ∧
    ([[("links", [urlA, urlB])], [("links", [urlC])], [("links", [])], [("links", [])]] :
      List PageResult) ≠ [] := by
  refine ⟨?_, ?_, by decide⟩
  · exact crawlView_eval envBfs urlS ∅ [] 10 9 _ (by decide)
  · exact crawlView_eval envBfs urlS (insert urlC (insert urlB (insert urlA (insert urlS ∅))))
      [] 10 9 _ (by decide)

/-- C6 amended: the frontier queue and the result list are recreated on
every `crawl` call (the call is literally the loop started from the queue
`[self.base_url]` and an empty result list), but `self.visited` persists on
the scraper instance: a `crawl` call whose seed is already in the carried
visited set returns no results and leaves the visited set unchanged, so a
crawl's outcome does depend on earlier calls on the same instance. -/
theorem c6_visited_persists (env : Env) (sb : String) (v : Finset String)
    (tags : List (String × Option String)) (k : Nat) :
    crawl env sb v tags k = crawlLoop env sb tags k [sb] v [] ∧
    (sb ∈ v → crawl env sb v tags k = .ok (v, [])) := by
  refine ⟨rfl, ?_⟩
  intro hsb
  show crawlLoop env sb tags k [sb] v [] = .ok (v, [])
  rw [crawlLoop.eq_def]
  dsimp only
  by_cases hk : (0 : Nat) < k
  · rw [dif_pos (by simpa using hk), if_pos hsb, crawlLoop_stops_queue_empty]
  · rw [dif_neg (by simpa using hk)]

/-- C6 witness: a repeat crawl whose seed is already visited returns
nothing. -/
theorem c6_visited_persists_witness :
    crawl envBfs urlS (insert urlS ∅) [] 10 = .ok (insert urlS ∅, []) :=
  (c6_visited_persists envBfs urlS (insert urlS ∅) [] 10).2 (Finset.mem_insert_self _ _)

/-- C7 counterexample: on the spec's own example site (`S → {A, B}`,
`A → {C}`) with the descending set-iteration order — a CPython behaviour as
legitimate as the ascending one — the results come out as `S, B, A, C`,
not exactly `S, A, B, C` as the claim demands. -/
theorem c7_exact_order_counterexample :
    crawlView envBfsRev urlS ∅ [("h1", none)] 10 =
      .ok ([urlS, urlA, urlB, urlC],
        [[("h1", [urlS]), ("links", [urlB, urlA])],
         [("h1", [urlB]), ("links", [])],
         [("h1", [urlA]), ("links", [urlC])],
         [("h1", [urlC]), ("links", [])]]) ∧
    ([[("h1", [urlS]), ("links", [urlB, urlA])],
      [("h1", [urlB]), ("links", [])],
      [("h1", [urlA]), ("links", [urlC])],
      [("h1", [urlC]), ("links", [])]] : List PageResult) ≠
      [[("h1", [urlS]), ("links", [urlB, urlA])],
       [("h1", [urlA]), ("links", [urlC])],
       [("h1", [urlB]), ("links", [])],
       [("h1", [urlC]), ("links", [])]] := by
  refine ⟨?_, by decide⟩
  exact crawlView_eval envBfsRev urlS ∅ [("h1", none)] 10 9 _ (by decide)

/-- C7 amended: CrawlResult is ordered by BFS layers — every crawl is the
depth-forgetting projection of the layer-annotated crawl, whose recorded
layers are nondecreasing, so a page of a shallower layer always appears
before every page of a deeper layer.  In the spec's example the layer
order pins the seed first and `C` last, but `A` and `B` (same layer) come
out in set-iteration order: ascending gives exactly `S, A, B, C`,
descending gives `S, B, A, C`; the order `S, A, C, B` is impossible. -/
theorem c7_layer_order :
    (∀ (env : Env) (sb : String) (v : Finset String)
        (tags : List (String × Option String)) (mp : Nat),
        crawl env sb v tags mp =
          (crawlD env sb v tags mp).map (fun p => (p.1, p.2.map Prod.fst))) ∧
    (∀ (env : Env) (sb : String) (v : Finset String)
        (tags : List (String × Option String)) (mp : Nat)
        (p : Finset String × List (PageResult × Nat)), crawlD env sb v tags mp = .ok p →
        List.Pairwise (fun a b => a.2 ≤ b.2) p.2) ∧
    crawlView envBfs urlS ∅ [("h1", none)] 10 =
      .ok ([urlS, urlA, urlB, urlC],
        [[("h1", [urlS]), ("links", [urlA, urlB])],
         [("h1", [urlA]), ("links", [urlC])],
         [("h1", [urlB]), ("links", [])],
         [("h1", [urlC]), ("links", [])]]) ∧
    crawlView envBfsRev urlS ∅ [("h1", none)] 10 =
      .ok ([urlS, urlA, urlB, urlC],
        [[("h1", [urlS]), ("links", [urlB, urlA])],
         [("h1", [urlB]), ("links", [])],
         [("h1", [urlA]), ("links", [urlC])],
         [("h1", [urlC]), ("links", [])]]) := by
  refine ⟨crawl_eq_crawlD, crawlD_sorted, ?_, ?_⟩
  · exact crawlView_eval envBfs urlS ∅ [("h1", none)] 10 9 _ (by decide)
  · exact crawlView_eval envBfsRev urlS ∅ [("h1", none)] 10 9 _ (by decide)

/-- C7 witness: the layer-annotated run of the example site succeeds and
its recorded layers are nondecreasing. -/
theorem c7_layer_order_witness :
    ∃ p, crawlD envBfs urlS ∅ [("h1", none)] 10 = .ok p ∧
      List.Pairwise (fun a b : PageResult × Nat => a.2 ≤ b.2) p.2 := by
  have hc : crawlLoop envBfs urlS [("h1", none)] 10 [urlS] ∅ [] =
      .ok (insert urlC (insert urlB (insert urlA (insert urlS ∅))),
        [[("h1", [urlS]), ("links", [urlA, urlB])],
         [("h1", [urlA]), ("links", [urlC])],
         [("h1", [urlB]), ("links", [])],
         [("h1", [urlC]), ("links", [])]]) :=
    crawlFuel_sound envBfs urlS [("h1", none)] 10 9 [urlS] ∅ [] _ (by decide)
  have hs := c7_layer_order.1 envBfs urlS ∅ [("h1", none)] 10
  rw [show crawl envBfs urlS ∅ [("h1", none)] 10 =
      crawlLoop envBfs urlS [("h1", none)] 10 [urlS] ∅ [] from rfl, hc] at hs
  cases hd : crawlD envBfs urlS ∅ [("h1", none)] 10 with
  | error e => rw [hd] at hs; cases hs
  | ok p => exact ⟨p, rfl, c7_layer_order.2.1 envBfs urlS ∅ [("h1", none)] 10 p hd⟩

/-- C8: a transport failure is isolated — `fetch_html` returns `None`
rather than raising on a transport error; the failing URL's iteration
records no PageResult, enqueues nothing, marks the URL visited (so it is
never retried or re-enqueued) and the loop continues; and on the site
whose second of three queued URLs fails, results are produced for the
first and third in their original relative order, with no entry for the
second. -/
theorem c8_fetch_failure_isolation :
    (∀ (env : Env) (url : String) (e : String),
        env.transport url = .error e → fetch_html env url = none) ∧
    (∀ (env : Env) (sb : String) (tags : List (String × Option String)) (mp : Nat)
        (s : CrawlState) (url : String) (rest : List String) (e : String),
        s.queue = url :: rest → s.scraped.length < mp → url ∉ s.visited →
        env.transport url = .error e →
        crawlStep env sb tags mp s = some (.ok ⟨rest, insert url s.visited, s.scraped⟩)) ∧
    crawlView envFailMid urlS ∅ [("h1", none)] 10 =
      .ok ([urlS, urlA, urlB, urlC],
        [[("h1", [urlS]), ("links", [urlA, urlB, urlC])],
         [("h1", [urlA]), ("links", [])],
         [("h1", [urlC]), ("links", [])]]) := by
  refine ⟨?_, crawlStep_transport_error, ?_⟩
  · intro env url e h
    unfold fetch_html
    rw [h]
  · exact crawlView_eval envFailMid urlS ∅ [("h1", none)] 10 9 _ (by decide)

/-- C8 witness: the failing URL `B` is popped, marked visited and dropped
without a result in one concrete iteration. -/
theorem c8_fetch_failure_isolation_witness :
    crawlStep envFailMid urlS [] 10 ⟨[urlB], ∅, []⟩ =
      some (.ok ⟨[], insert urlB ∅, []⟩) :=
  c8_fetch_failure_isolation.2.1 envFailMid urlS [] 10 ⟨[urlB], ∅, []⟩ urlB []
    "connection refused" rfl (by decide) (Finset.not_mem_empty _) rfl

/-- C9 counterexample: with a perfectly well-formed base URL, the scope
filter raises `ValueError` (modelled as `Except.error`) on the malformed
URL `"http://["`, whose authority has an unmatched bracket — `urlparse`
raises `Invalid IPv6 URL` — so `is_internal_url` is not a total,
never-raising function of arbitrary strings. -/
theorem c9_bracket_raise_counterexample :
    netlocE "http://good.example/" = .ok "good.example" ∧
    is_internal_url "http://good.example/" "http://[" = .error () := by
  exact ⟨by decide, by decide⟩

/-- C9 amended: `is_internal_url` is pure and returns a boolean for every
pair of URLs whose authorities have no mismatched square bracket, and every
malformed URL with an empty parsed netloc is classified as external
(given a base with a non-empty netloc); but a URL whose authority contains
`[` without `]` (or vice versa) makes `urlparse` — and hence the filter —
raise `ValueError`, and those are exactly the raising inputs. -/
theorem c9_scope_filter_totality :
    (∀ base url : String, bracketMismatch url = false → bracketMismatch base = false →
        ∃ b, is_internal_url base url = .ok b) ∧
    (∀ base url nb : String, netlocE url = .ok "" → netlocE base = .ok nb → nb ≠ "" →
        is_internal_url base url = .ok false) ∧
    (∀ s : String, netlocE s = .error () ↔ bracketMismatch s = true) :=
  ⟨is_internal_total, is_internal_malformed_external, netlocE_error_iff⟩

/-- C9 witness: the filter classifies the malformed URL `"not a url"`
(empty netloc) as external relative to `http://x.com/`. -/
theorem c9_scope_filter_totality_witness :
    is_internal_url "http://x.com/" "not a url" = .ok false :=
  c9_scope_filter_totality.2.1 "http://x.com/" "not a url" "x.com" (by decide) (by decide)
    (by decide)

/-- C10: the crawl loop terminates on every environment and every starting
state — some finite fuel makes the fuelled loop finish with exactly the
loop's result.  Every oracle yields finitely many links per page; elements
are appended only in result-recording iterations, which the budget bounds,
so the number of iterations is finite even on an infinite link graph such
as `envFresh`. -/
theorem c10_crawl_terminates (env : Env) (sb : String)
    (tags : List (String × Option String)) (mp : Nat) (q : List String) (v : Finset String)
    (sc : List PageResult) :
    ∃ n, crawlFuel env sb tags mp n q v sc = some (crawlLoop env sb tags mp q v sc) :=
  crawlFuel_exists env sb tags mp q v sc

end Scraper

